import Mathlib

/-!
Verification development for the MoodTune RAG retrieval-augmentation pipeline.

Shallow embedding of the core pipeline code:
  * `app/src/utils.py`            — `relax_range`
  * `app/src/config.py`           — `Config.EMOTION_PARAMS`, `Config.MIN_TRACKS`
  * `app/src/opensearch_client.py`— `OpenSearchRepo.search_tracks_by_emotion`,
                                    `OpenSearchRepo.find_by_title_artist`
  * `app/src/rag_pipeline.py`     — `RAGPipeline.emotion_to_params`,
                                    `RAGPipeline.search_tracks`
  * `app/src/llm.py`              — the post-processing of `LLMClient.curate_songs`
  * `app/routes/rag.py`           — the merge/dedup loop, the indexing normalizer
                                    (stable id derivation) and the effective
                                    minimum-track computation of `/search`.

External collaborators (OpenSearch, the OpenAI chat model, the music resolver
service) are modelled as oracles: functions supplied in an `Env` record whose
results are arbitrary.  A call that can raise in Python is modelled with
`Except Unit`; an exception caught locally in the Python code is folded into a
total function at the same place the `try/except` sits in the source.
Python float arithmetic is modelled over `ℚ`.
-/

/-- Python `str.lower()` (ASCII case folding), as used on titles/artists. -/
def pyLower (s : String) : String := ⟨s.data.map Char.toLower⟩

/-- Dropping leading and trailing whitespace from a list of characters. -/
def stripList (l : List Char) : List Char :=
  ((l.dropWhile Char.isWhitespace).reverse.dropWhile Char.isWhitespace).reverse

/-- Python `str.strip()`. -/
def pyStrip (s : String) : String := ⟨stripList s.data⟩

/-- Python `(d.get("k") or "")` for an optional string field. -/
def strD (o : Option String) : String := o.getD ""

/-- Python truthiness test `not x` for an optional string (`None` or `""`). -/
def isFalsyStr (o : Option String) : Bool :=
  match o with
  | none => true
  | some s => s = ""

/-- A track record: the free-form dictionaries flowing through the pipeline,
with one optional field per key the code reads or writes. -/
structure Track where
  id : Option String
  externalId : Option String
  provider : Option String
  title : Option String
  artist : Option String
  uri : Option String
  previewUrl : Option String
  imageUrl : Option String
  thumbnailUrl : Option String
  mood : Option String
  valence : Option ℚ
  energy : Option ℚ
  llmText : Option String
  createdAt : Option String

/-- The all-`none` dictionary `{}`. -/
def blankTrack : Track :=
  ⟨none, none, none, none, none, none, none, none, none, none, none, none, none, none⟩

/-- A lower-cased (title, artist) pair. -/
abbrev TAKey := String × String

/-- The merge/dedup key: `((t.get("title") or "").strip().lower(),
(t.get("artist") or "").strip().lower())` as computed in the merge loops of
`rag_pipeline.search_tracks` and `routes/rag.py`. -/
def keyOf (t : Track) : TAKey :=
  (pyLower (pyStrip (strD t.title)), pyLower (pyStrip (strD t.artist)))

/-- The un-stripped key `(title.lower(), artist.lower())` used when the LLM
fallback assembles its `found` list. -/
def lowKeyOf (t : Track) : TAKey :=
  (pyLower (strD t.title), pyLower (strD t.artist))

/-- `(valence_range, energy_range)` for one emotion. -/
structure EmotionParams where
  valence : ℚ × ℚ
  energy : ℚ × ℚ

/-- `Config.EMOTION_PARAMS` from `config.py`. -/
def EMOTION_PARAMS : List (String × EmotionParams) :=
  [("happy", ⟨(0.6, 1.0), (0.5, 1.0)⟩),
   ("sad", ⟨(0.0, 0.4), (0.0, 0.5)⟩),
   ("angry", ⟨(0.2, 0.6), (0.6, 1.0)⟩),
   ("relaxed", ⟨(0.5, 1.0), (0.0, 0.5)⟩)]

/-- `RAGPipeline.emotion_to_params`: mood label to ranges, with the neutral
default `(0.4, 0.6)` for unknown labels. -/
def emotion_to_params (emotion : String) : EmotionParams :=
  match EMOTION_PARAMS.lookup (pyLower emotion) with
  | some p => p
  | none => ⟨(0.4, 0.6), (0.4, 0.6)⟩

/-- `utils.relax_range`: widen `bounds` symmetrically by `step`, clamped to
`[min_val, max_val]` (the Python defaults are `0.0` and `1.0`). -/
def relax_range (bounds : ℚ × ℚ) (step min_val max_val : ℚ) : ℚ × ℚ :=
  (max min_val (bounds.1 - step), min max_val (bounds.2 + step))

/-- Outcome of one raw OpenSearch client call: a hit list, a 404
(`NotFoundError`), or any other failure (network error, unreachable host). -/
inductive OSRaw (α : Type) where
  | ok (val : α)
  | notFound
  | unreachable

/-- The Document Store as an oracle.  `rawSearch` is the behaviour of
`client.search` for the emotion query, indexed by the call sequence number so
that successive queries of one request may answer differently.
`find_by_title_artist` wraps its whole body in `try/except → []` in
`opensearch_client.py`, so it is modelled total. -/
structure OpenSearchRepo where
  rawSearch : Nat → String → (ℚ × ℚ) → (ℚ × ℚ) → Nat → OSRaw (List Track)
  find_by_title_artist : String → String → Nat → List Track

/-- `OpenSearchRepo.search_tracks_by_emotion`: a `NotFoundError` triggers a
best-effort `ensure_index_exists` (the returned flag records that the lazy
index creation was attempted) and yields `[]`; any other client failure
propagates; a successful search returns the hit sources. -/
def search_tracks_by_emotion (repo : OpenSearchRepo) (call : Nat) (emotion : String)
    (valence energy : ℚ × ℚ) (limit : Nat) : Except Unit (List Track) × Bool :=
  match repo.rawSearch call emotion valence energy limit with
  | .ok hits => (.ok hits, false)
  | .notFound => (.ok [], true)
  | .unreachable => (.error (), false)

/-- A parsed model suggestion `{title?, artist?}` (one element of the JSON
array the chat model returned). -/
structure Sugg where
  title : Option String
  artist : Option String

/-- One audio-features record `{valence?, energy?}`. -/
structure Feat where
  valence : Option ℚ
  energy : Option ℚ

/-- The external collaborators of `RAGPipeline.search_tracks`.
`llmInit` is `LLMClient()` construction (raises when no API key is set).
`curateModel` is the parsed JSON array produced by the chat model inside
`curate_songs`, indexed by the call sequence number; the avoid list and the
valence/energy guidance string are passed to the oracle as data.
`resolveBatch` is `MusicServiceClient.resolve_batch` (may raise), and
`audioFeatures` is `MusicServiceClient.audio_features` (may raise). -/
structure Env where
  repo : OpenSearchRepo
  llmInit : Except Unit Unit
  curateModel : Nat → String → Nat → List TAKey → EmotionParams → Except Unit (List Sugg)
  resolveBatch : List TAKey → Except Unit (List Track)
  audioFeatures : List String → Except Unit (List (String × Feat))

/-- The post-processing of `LLMClient.curate_songs` on the parsed model
output: strip both fields, drop entries with an empty title or artist, and
truncate to `count` (`return out[:count]`). -/
def curate_songs (modelOut : List Sugg) (count : Nat) : List Sugg :=
  (modelOut.filterMap fun s =>
    let title := pyStrip (strD s.title)
    let artist := pyStrip (strD s.artist)
    if title ≠ "" ∧ artist ≠ "" then some ⟨some title, some artist⟩ else none).take count

/-- The suggestion-filtering loop body of `RAGPipeline.search_tracks`
(lines 78–96): reject blank titles/artists, reject keys already in
`existing_keys`, reject pairs the KB already knows via
`find_by_title_artist`, otherwise reserve the key and collect the pair. -/
def processSuggestions (repo : OpenSearchRepo) :
    List Sugg → List TAKey → List TAKey → List TAKey × List TAKey
  | [], keys, pairs => (keys, pairs)
  | s :: rest, keys, pairs =>
    let title := pyStrip (strD s.title)
    let artist := pyStrip (strD s.artist)
    if title = "" ∨ artist = "" then processSuggestions repo rest keys pairs
    else
      let key := (pyLower title, pyLower artist)
      if key ∈ keys then processSuggestions repo rest keys pairs
      else if (repo.find_by_title_artist title artist 1).isEmpty then
        processSuggestions repo rest (keys ++ [key]) (pairs ++ [(title, artist)])
      else processSuggestions repo rest keys pairs

/-- The bounded `while len(pairs) < desired and iter_idx < max_iters` loop of
`RAGPipeline.search_tracks` (`max_iters = 3`), descending on the remaining
iteration budget.  Each round asks the curator for `desired` suggestions
(avoid list truncated to 100 keys) and filters them. -/
def curationRounds (env : Env) (emotion : String) (base : EmotionParams) (desired : Nat) :
    Nat → Nat → List TAKey → List TAKey → Except Unit (List TAKey × List TAKey)
  | 0, _, keys, pairs => .ok (keys, pairs)
  | fuel + 1, call, keys, pairs =>
    if pairs.length < desired then
      match env.curateModel call emotion desired (keys.take 100) base with
      | .error e => .error e
      | .ok modelOut =>
        let suggestions := curate_songs modelOut desired
        let next := processSuggestions env.repo suggestions keys pairs
        curationRounds env emotion base desired fuel (call + 1) next.1 next.2
    else .ok (keys, pairs)

/-- Insert a key into the (insertion-ordered) model of the Python set. -/
def addKey (keys : List TAKey) (k : TAKey) : List TAKey :=
  if k ∈ keys then keys else keys ++ [k]

/-- Building `existing_keys` from the retrieved tracks
(`rag_pipeline.py` lines 56–61). -/
def existingKeysOf (tracks : List Track) : List TAKey :=
  tracks.foldl (fun ks t =>
    let ti := pyLower (pyStrip (strD t.title))
    let ar := pyLower (pyStrip (strD t.artist))
    if ti ≠ "" ∧ ar ≠ "" then addKey ks (ti, ar) else ks) []

/-- Python `round(x, 2)` (round half to even) over `ℚ`. -/
def pyRound2 (q : ℚ) : ℚ :=
  let s := q * 100
  let f : ℤ := Int.floor s
  let r := s - (f : ℚ)
  let n : ℤ :=
    if r < 1 / 2 then f
    else if 1 / 2 < r then f + 1
    else if f % 2 = 0 then f else f + 1
  (n : ℚ) / 100

/-- `sp_ids`: external ids of resolved entries whose provider is `"spotify"`
and whose `external_id` is truthy. -/
def spotifyIds (resolved : List Track) : List String :=
  resolved.filterMap fun t =>
    if t.provider = some "spotify" then
      match t.externalId with
      | some e => if e = "" then none else some e
      | none => none
    else none

/-- `feats.get(ext_id) if ext_id else None`. -/
def featFor (feats : List (String × Feat)) (t : Track) : Option Feat :=
  match t.externalId with
  | some e => if e = "" then none else feats.lookup e
  | none => none

/-- `(f or {}).get("valence", v_mid)`. -/
def featValence (f : Option Feat) (dflt : ℚ) : ℚ :=
  match f with
  | some ft => ft.valence.getD dflt
  | none => dflt

/-- `(f or {}).get("energy", e_mid)`. -/
def featEnergy (f : Option Feat) (dflt : ℚ) : ℚ :=
  match f with
  | some ft => ft.energy.getD dflt
  | none => dflt

/-- Python `a or b` for optional strings (`t.get("id") or ext_id`). -/
def pyOrStr (a b : Option String) : Option String :=
  match a with
  | some s => if s = "" then b else some s
  | none => b

/-- Assembling the `found` list from the resolved entries
(`rag_pipeline.py` lines 113–139): skip falsy titles/artists, skip keys in
`seen` (threaded accumulator, seeded with `existing_keys`), and build the
output dictionary with features or midpoint valence/energy. -/
def buildFound (emotion : String) (feats : List (String × Feat)) (vMid eMid : ℚ) :
    List Track → List TAKey → List Track
  | [], _ => []
  | t :: rest, seen =>
    match t.title, t.artist with
    | some ti, some ar =>
      if ti = "" ∨ ar = "" then buildFound emotion feats vMid eMid rest seen
      else
        let key := (pyLower ti, pyLower ar)
        if key ∈ seen then buildFound emotion feats vMid eMid rest seen
        else
          let f := featFor feats t
          { blankTrack with
              id := pyOrStr t.id t.externalId
              title := some ti
              artist := some ar
              uri := t.uri
              previewUrl := t.previewUrl
              imageUrl := t.imageUrl
              thumbnailUrl := t.thumbnailUrl
              mood := some (pyLower emotion)
              valence := some (featValence f vMid)
              energy := some (featEnergy f eMid) } ::
            buildFound emotion feats vMid eMid rest (seen ++ [key])
    | _, _ => buildFound emotion feats vMid eMid rest seen

/-- The whole LLM fallback of `RAGPipeline.search_tracks` up to (excluding)
the merge: construct the client, build `existing_keys`, run the curation
rounds, resolve the accepted pairs in one batch, fetch audio features
best-effort (`except: feats = {}`), and assemble `found`. -/
def augment_candidates (env : Env) (emotion : String) (base : EmotionParams)
    (min_tracks : Nat) (tracks : List Track) : Except Unit (List Track) :=
  match env.llmInit with
  | .error e => .error e
  | .ok _ =>
    let keys0 := existingKeysOf tracks
    let desired := max min_tracks 20
    match curationRounds env emotion base desired 3 1 keys0 [] with
    | .error e => .error e
    | .ok kp =>
      match env.resolveBatch kp.2 with
      | .error e => .error e
      | .ok resolved =>
        let spIds := spotifyIds resolved
        let feats :=
          if spIds.isEmpty then []
          else
            match env.audioFeatures spIds with
            | .ok m => m
            | .error _ => []
        let vMid := pyRound2 ((base.valence.1 + base.valence.2) / 2)
        let eMid := pyRound2 ((base.energy.1 + base.energy.2) / 2)
        .ok (buildFound emotion feats vMid eMid resolved kp.1)

/-- One pass of the merge/dedup loop shared by `rag_pipeline.search_tracks`
(lines 143–153) and `routes/rag.py` (lines 116–126): skip entries whose
stripped lower-cased title or artist is empty, skip keys already seen,
otherwise append and mark seen. -/
def mergePass (seen : List TAKey) (acc : List Track) : List Track → List TAKey × List Track
  | [] => (seen, acc)
  | t :: rest =>
    let k := keyOf t
    if k.1 = "" ∨ k.2 = "" then mergePass seen acc rest
    else if k ∈ seen then mergePass seen acc rest
    else mergePass (seen ++ [k]) (acc ++ [t]) rest

/-- `merged`: the KB list (priority 1) followed by the fallback list
(priority 2), deduplicated. -/
def mergeLists (a b : List Track) : List Track :=
  let p1 := mergePass [] [] a
  (mergePass p1.1 p1.2 b).2

/-- The tail of the `try` block of `RAGPipeline.search_tracks`: merge the KB
tracks with the fallback candidates and return
`merged[: max(min_tracks * 2, 50)] if merged else found`. -/
def augment_and_merge (env : Env) (emotion : String) (base : EmotionParams)
    (min_tracks : Nat) (tracks : List Track) : Except Unit (List Track) :=
  match augment_candidates env emotion base min_tracks tracks with
  | .error e => .error e
  | .ok found =>
    let merged := mergeLists tracks found
    .ok (if merged.isEmpty then found else merged.take (max (min_tracks * 2) 50))

/-- Result of the relaxation loop: an early return (enough tracks) or falling
through with the last (most relaxed) result set. -/
inductive RetOut where
  | early (res : List Track)
  | fellThrough (last : List Track)

/-- The `for _ in range(max_relax_steps + 1)` loop of
`RAGPipeline.search_tracks` (lines 38–49), descending on the remaining
iteration count and threading the query call number and the last result.
The second component counts the Document Store queries issued. -/
def retrieveLoop (repo : OpenSearchRepo) (emotion : String) (min_tracks cap : Nat) :
    Nat → Nat → (ℚ × ℚ) → (ℚ × ℚ) → List Track → Except Unit RetOut × Nat
  | 0, _, _, _, last => (.ok (.fellThrough last), 0)
  | fuel + 1, call, valence, energy, _ =>
    match search_tracks_by_emotion repo call (pyLower emotion) valence energy cap with
    | (.error e, _) => (.error e, 1)
    | (.ok tracks, _) =>
      if min_tracks ≤ tracks.length then (.ok (.early (tracks.take cap)), 1)
      else
        let next := retrieveLoop repo emotion min_tracks cap fuel (call + 1)
          (relax_range valence (1 / 10) 0 1) (relax_range energy (1 / 10) 0 1) tracks
        (next.1, next.2 + 1)

/-- `RAGPipeline.search_tracks`, paired with the number of Document Store
queries the relaxation loop issued.  A failure of the augmentation `try`
block falls back to the retrieved tracks; a failure of the retrieval loop
itself propagates. -/
def search_tracks_run (env : Env) (emotion : String) (min_tracks max_relax_steps : Nat) :
    Except Unit (List Track) × Nat :=
  let base := emotion_to_params emotion
  let cap := max (min_tracks * 2) 50
  match retrieveLoop env.repo emotion min_tracks cap (max_relax_steps + 1) 0
      base.valence base.energy [] with
  | (.error e, c) => (.error e, c)
  | (.ok (.early r), c) => (.ok r, c)
  | (.ok (.fellThrough tracks), c) =>
    match augment_and_merge env emotion base min_tracks tracks with
    | .ok res => (.ok res, c)
    | .error _ => (.ok tracks, c)

/-- `RAGPipeline.search_tracks` (result only). -/
def search_tracks (env : Env) (emotion : String) (min_tracks max_relax_steps : Nat) :
    Except Unit (List Track) :=
  (search_tracks_run env emotion min_tracks max_relax_steps).1

/-- Python `str.replace(" ", "-")`: the pattern is a single character, so the
substring replacement is a character map. -/
def replaceSpaces (s : String) : String :=
  ⟨s.data.map fun c => if c = ' ' then '-' else c⟩

/-- `title.strip().lower().replace(" ", "-")` from the indexing step of
`routes/rag.py`. -/
def slugify (s : String) : String := replaceSpaces (pyLower (pyStrip s))

/-- The stable id `f"llm-{emotion}-{ti}-{ar}"[:256]` derived in
`routes/rag.py` for a candidate lacking an id. -/
def derived_doc_id (emotion : String) (doc : Track) : String :=
  ("llm-" ++ emotion ++ "-" ++ slugify (strD doc.title) ++ "-" ++
    slugify (strD doc.artist)).take 256

/-- The per-candidate normalization of the indexing step of `routes/rag.py`
(lines 136–149): derive the id when falsy, default `mood` and `created_at`,
and attach `llm_text`. -/
def normalize_doc (emotion now : String) (it : Track) : Track :=
  let d1 := if isFalsyStr it.id then { it with id := some (derived_doc_id emotion it) } else it
  let d2 := match d1.mood with
    | none => { d1 with mood := some emotion }
    | some _ => d1
  let d3 := match d2.createdAt with
    | none => { d2 with createdAt := some now }
    | some _ => d2
  { d3 with llmText := some (emotion ++ " | " ++ strD d3.title ++ " - " ++ strD d3.artist) }

/-- `Config.MIN_TRACKS = max(20, int(os.getenv("MIN_TRACKS", "20")))`. -/
def MIN_TRACKS (envVal : Int) : Int := max 20 envVal

/-- Python `int(p.get("min_tracks") or Config.MIN_TRACKS)`: a missing key and
the falsy value `0` both fall back to the configured default. -/
def pyIntOr (req : Option Int) (dflt : Int) : Int :=
  match req with
  | none => dflt
  | some v => if v = 0 then dflt else v

/-- `min_tracks = max(Config.MIN_TRACKS, requested_min)` from the `/search`
route. -/
def effective_min_tracks (cfgMin : Int) (requested : Option Int) : Int :=
  max cfgMin (pyIntOr requested cfgMin)

/-- Projection: the titles of a successful result (used to state concrete
runs without comparing `ℚ` values). -/
def okTitles (r : Except Unit (List Track)) : Option (List String) :=
  match r with
  | .ok l => some (l.map fun t => strD t.title)
  | .error _ => none

/-- Projection: the length of a successful result. -/
def okLen (r : Except Unit (List Track)) : Option Nat :=
  match r with
  | .ok l => some l.length
  | .error _ => none

/-- Projection: did the call propagate an exception? -/
def isErr (r : Except Unit (List Track)) : Bool :=
  match r with
  | .error _ => true
  | .ok _ => false

/-- Does some returned candidate's (title, artist) pair hit the Document
Store via `find_by_title_artist`? -/
def anyFindable (repo : OpenSearchRepo) (r : Except Unit (List Track)) : Bool :=
  match r with
  | .ok l => l.any fun t => !(repo.find_by_title_artist (strD t.title) (strD t.artist) 1).isEmpty
  | .error _ => false

/-- Projection: titles of the last result set when the relaxation loop fell
through. -/
def fellTitles (r : Except Unit RetOut × Nat) : Option (List String) :=
  match r with
  | (.ok (.fellThrough l), _) => some (l.map fun t => strD t.title)
  | _ => none

/-- Projection: did `audio_features` raise for these ids? -/
def afErr (env : Env) (ids : List String) : Bool :=
  match env.audioFeatures ids with
  | .error _ => true
  | .ok _ => false

/-- Environment in which every raw Document Store search fails with a
non-404 error (unreachable host); all other collaborators are benign. -/
def envUnreach : Env :=
  ⟨⟨fun _ _ _ _ _ => .unreachable, fun _ _ _ => []⟩, .ok (),
   fun _ _ _ _ _ => .ok [], fun _ => .ok [], fun _ => .ok []⟩

/-- Environment in which every raw Document Store search reports a missing
collection (404) and the LLM client cannot be constructed. -/
def envMissingIdx : Env :=
  ⟨⟨fun _ _ _ _ _ => .notFound, fun _ _ _ => []⟩, .error (),
   fun _ _ _ _ _ => .ok [], fun _ => .ok [], fun _ => .ok []⟩

/-- `find_by_title_artist` behaviour for the C2 scenario: the store already
knows the suggested pair `("s0", "b0")` and every canonical title produced by
the resolver (those starting with `"r "`). -/
def findKB (t : String) (_a : String) (_lim : Nat) : List Track :=
  if t = "s0" then [blankTrack] else if t.take 2 = "r " then [blankTrack] else []

/-- First curation round of the C2 scenario: twenty suggestions
`("s0", "b0") … ("s19", "b19")`; `("s0", "b0")` will be rejected through the
knowledge-base check. -/
def suggRound1 : List Sugg :=
  (List.range 20).map fun i => ⟨some ("s" ++ toString i), some ("b" ++ toString i)⟩

/-- Second curation round of the C2 scenario: twenty fresh suggestions
`("u0", "c0") … ("u19", "c19")`. -/
def suggRound2 : List Sugg :=
  (List.range 20).map fun i => ⟨some ("u" ++ toString i), some ("c" ++ toString i)⟩

/-- Environment for the C2 scenario: an empty store, a curator answering the
requested twenty suggestions per round, and a resolver that canonicalizes
every requested pair `(t, a)` to `("r " ++ t, a)` — one output per input. -/
def envAug : Env :=
  ⟨⟨fun _ _ _ _ _ => .ok [], findKB⟩, .ok (),
   fun call _ _ _ _ => if call = 1 then .ok suggRound1 else .ok suggRound2,
   fun ps => .ok (ps.map fun p =>
     { blankTrack with title := some ("r " ++ p.1), artist := some p.2 }),
   fun _ => .ok []⟩

/-- Environment for the C8 scenario: an empty store, a curator suggesting one
song, a resolver canonicalizing it to a different title with a Spotify id,
and an `audio_features` call that raises. -/
def envFeatFail : Env :=
  ⟨⟨fun _ _ _ _ _ => .ok [], fun _ _ _ => []⟩, .ok (),
   fun _ _ _ _ _ => .ok [⟨some "New Song", some "X"⟩],
   fun ps => .ok (ps.map fun p =>
     { blankTrack with
         title := some (p.1 ++ " (Remastered)")
         artist := some p.2
         provider := some "spotify"
         externalId := some "sp1" }),
   fun _ => .error ()⟩

/-- Environment in which every collaborator answers successfully with
nothing. -/
def envQuiet : Env :=
  ⟨⟨fun _ _ _ _ _ => .ok [], fun _ _ _ => []⟩, .ok (),
   fun _ _ _ _ _ => .ok [], fun _ => .ok [], fun _ => .ok []⟩

/-- Environment with an empty store and a failing LLM client construction. -/
def envNoLLM : Env :=
  ⟨⟨fun _ _ _ _ _ => .ok [], fun _ _ _ => []⟩, .error (),
   fun _ _ _ _ _ => .ok [], fun _ => .ok [], fun _ => .ok []⟩

/-- A track titled `"Song"` by `"Artist"` with no pre-set id. -/
def songTrack : Track := { blankTrack with title := some "Song", artist := some "Artist" }

/-- A KB entry for the merge tie-break scenario. -/
def mergeTrackA : Track := { blankTrack with title := some "Song", artist := some "Artist" }

/-- An augmented entry sharing `mergeTrackA`'s lower-cased key (different id
so the records differ). -/
def mergeTrackB : Track :=
  { blankTrack with id := some "dup", title := some "song", artist := some "ARTIST" }

/-! ### Character and string lemmas -/

/-- ASCII lowering maps whitespace to whitespace and non-whitespace to
non-whitespace. -/
theorem isWhitespace_toLower (c : Char) : (Char.toLower c).isWhitespace = c.isWhitespace := by
  show (if c.toNat ≥ 65 ∧ c.toNat ≤ 90 then Char.ofNat (c.toNat + 32) else c).isWhitespace
      = c.isWhitespace
  by_cases h : c.toNat ≥ 65 ∧ c.toNat ≤ 90
  · rw [if_pos h]
    obtain ⟨h1, h2⟩ := h
    have h32 : c ≠ ' ' := fun e => by subst e; exact absurd h1 (by decide)
    have h9 : c ≠ '\t' := fun e => by subst e; exact absurd h1 (by decide)
    have h13 : c ≠ '\x0d' := fun e => by subst e; exact absurd h1 (by decide)
    have h10 : c ≠ '\n' := fun e => by subst e; exact absurd h1 (by decide)
    have hws : c.isWhitespace = false := by
      simp [Char.isWhitespace, h32, h9, h13, h10]
    rw [hws]
    generalize c.toNat = m at h1 h2 ⊢
    interval_cases m <;> decide
  · rw [if_neg h]

/-- Lowering commutes with stripping on character lists. -/
theorem map_toLower_stripList (l : List Char) :
    (stripList l).map Char.toLower = stripList (l.map Char.toLower) := by
  have hp : (Char.isWhitespace ∘ Char.toLower) = Char.isWhitespace := by
    funext c
    exact isWhitespace_toLower c
  unfold stripList
  rw [List.dropWhile_map, hp, ← List.map_reverse, List.dropWhile_map, hp, ← List.map_reverse]

/-- `pyLower` commutes with `pyStrip`. -/
theorem pyLower_pyStrip (s : String) : pyLower (pyStrip s) = pyStrip (pyLower s) := by
  unfold pyLower pyStrip
  exact congrArg String.mk (map_toLower_stripList s.data)

/-- Strings with equal lower-casings have equal stripped lower-casings. -/
theorem strip_lower_eq_of_lower_eq {x y : String} (h : pyLower x = pyLower y) :
    pyLower (pyStrip x) = pyLower (pyStrip y) := by
  rw [pyLower_pyStrip, pyLower_pyStrip, h]

/-- Tracks with equal un-stripped keys have equal merge keys. -/
theorem keyOf_eq_of_lowKeyOf_eq {x y : Track} (h : lowKeyOf x = lowKeyOf y) :
    keyOf x = keyOf y := by
  unfold lowKeyOf at h
  unfold keyOf
  obtain ⟨h1, h2⟩ := Prod.mk.injEq _ _ _ _ ▸ h
  exact Prod.ext (strip_lower_eq_of_lower_eq h1) (strip_lower_eq_of_lower_eq h2)

/-- An entry with an empty (or missing) title has an empty merge-key first
component. -/
theorem keyOf_fst_of_title_empty {t : Track} (h : strD t.title = "") :
    (keyOf t).1 = "" := by
  unfold keyOf
  rw [h]
  rfl

/-- An entry with an empty (or missing) artist has an empty merge-key second
component. -/
theorem keyOf_snd_of_artist_empty {t : Track} (h : strD t.artist = "") :
    (keyOf t).2 = "" := by
  unfold keyOf
  rw [h]
  rfl

/-! ### Merge/dedup lemmas -/

/-- `mergePass` only ever appends to the accumulator. -/
theorem mergePass_acc_mono {x : Track} :
    ∀ (l : List Track) (seen : List TAKey) (acc : List Track),
      x ∈ acc → x ∈ (mergePass seen acc l).2 := by
  intro l
  induction l with
  | nil => intro seen acc hx; simpa [mergePass] using hx
  | cons t rest ih =>
    intro seen acc hx
    simp only [mergePass]
    split
    · exact ih seen acc hx
    · split
      · exact ih seen acc hx
      · exact ih _ _ (List.mem_append_left _ hx)

/-- `mergePass` only ever appends to the seen-key set. -/
theorem mergePass_seen_mono {k : TAKey} :
    ∀ (l : List Track) (seen : List TAKey) (acc : List Track),
      k ∈ seen → k ∈ (mergePass seen acc l).1 := by
  intro l
  induction l with
  | nil => intro seen acc hk; simpa [mergePass] using hk
  | cons t rest ih =>
    intro seen acc hk
    simp only [mergePass]
    split
    · exact ih seen acc hk
    · split
      · exact ih seen acc hk
      · exact ih _ _ (List.mem_append_left _ hk)

/-- Elements of a `mergePass` output come from the accumulator or are valid
entries of the input that were not yet seen. -/
theorem mergePass_mem {x : Track} :
    ∀ (l : List Track) (seen : List TAKey) (acc : List Track),
      x ∈ (mergePass seen acc l).2 →
      x ∈ acc ∨ (x ∈ l ∧ keyOf x ∉ seen ∧ (keyOf x).1 ≠ "" ∧ (keyOf x).2 ≠ "") := by
  intro l
  induction l with
  | nil => intro seen acc hx; left; simpa [mergePass] using hx
  | cons t rest ih =>
    intro seen acc hx
    simp only [mergePass] at hx
    split at hx
    · rcases ih _ _ hx with h | ⟨h1, h2, h3⟩
      · exact Or.inl h
      · exact Or.inr ⟨List.mem_cons_of_mem _ h1, h2, h3⟩
    · split at hx
      · rcases ih _ _ hx with h | ⟨h1, h2, h3⟩
        · exact Or.inl h
        · exact Or.inr ⟨List.mem_cons_of_mem _ h1, h2, h3⟩
      · rcases ih _ _ hx with h | ⟨h1, h2, h3⟩
        · rcases List.mem_append.1 h with h' | h'
          · exact Or.inl h'
          · rename_i hemp hseen
            rcases List.mem_singleton.1 h' with rfl
            push_neg at hemp
            exact Or.inr ⟨List.mem_cons_self _ _, hseen, hemp⟩
        · refine Or.inr ⟨List.mem_cons_of_mem _ h1, fun hk => h2 (List.mem_append_left _ hk), h3⟩

/-- A valid entry of the input list always leaves its key in the seen set of
`mergePass`. -/
theorem mergePass_seen_complete {t : Track} :
    ∀ (l : List Track) (seen : List TAKey) (acc : List Track),
      t ∈ l → (keyOf t).1 ≠ "" → (keyOf t).2 ≠ "" →
      keyOf t ∈ (mergePass seen acc l).1 := by
  intro l
  induction l with
  | nil => intro seen acc ht; cases ht
  | cons u rest ih =>
    intro seen acc ht h1 h2
    rcases List.mem_cons.1 ht with rfl | hmem
    · simp only [mergePass]
      split
      · rename_i hemp
        rcases hemp with h | h
        · exact absurd h h1
        · exact absurd h h2
      · split
        · rename_i hseen
          exact mergePass_seen_mono _ _ _ hseen
        · exact mergePass_seen_mono _ _ _ (List.mem_append_right _ (List.mem_singleton.2 rfl))
    · simp only [mergePass]
      split
      · exact ih _ _ hmem h1 h2
      · split
        · exact ih _ _ hmem h1 h2
        · exact ih _ _ hmem h1 h2

/-- Every key in a `mergePass` seen-output was already seen or belongs to
some entry of the accumulated output. -/
theorem mergePass_covers {k : TAKey} :
    ∀ (l : List Track) (seen : List TAKey) (acc : List Track),
      k ∈ (mergePass seen acc l).1 →
      k ∈ seen ∨ ∃ x, x ∈ (mergePass seen acc l).2 ∧ keyOf x = k := by
  intro l
  induction l with
  | nil => intro seen acc hk; left; simpa [mergePass] using hk
  | cons t rest ih =>
    intro seen acc hk
    simp only [mergePass] at hk ⊢
    by_cases hemp : (keyOf t).1 = "" ∨ (keyOf t).2 = ""
    · rw [if_pos hemp] at hk ⊢
      exact ih _ _ hk
    · rw [if_neg hemp] at hk ⊢
      by_cases hseen : keyOf t ∈ seen
      · rw [if_pos hseen] at hk ⊢
        exact ih _ _ hk
      · rw [if_neg hseen] at hk ⊢
        rcases ih _ _ hk with h | h
        · rcases List.mem_append.1 h with h' | h'
          · exact Or.inl h'
          · rcases List.mem_singleton.1 h' with rfl
            refine Or.inr ⟨t, mergePass_acc_mono _ _ _ (List.mem_append_right _ ?_), rfl⟩
            exact List.mem_singleton.2 rfl
        · exact Or.inr h

/-- The dedup invariant of `mergePass`: if the accumulated entries have
pairwise distinct merge keys all recorded in `seen`, the same holds of the
output. -/
theorem mergePass_inv :
    ∀ (l : List Track) (seen : List TAKey) (acc : List Track),
      acc.Pairwise (fun x y => keyOf x ≠ keyOf y) →
      (∀ x ∈ acc, keyOf x ∈ seen) →
      (mergePass seen acc l).2.Pairwise (fun x y => keyOf x ≠ keyOf y) ∧
        ∀ x ∈ (mergePass seen acc l).2, keyOf x ∈ (mergePass seen acc l).1 := by
  intro l
  induction l with
  | nil =>
    intro seen acc h1 h2
    exact ⟨by simpa [mergePass] using h1, by simpa [mergePass] using h2⟩
  | cons t rest ih =>
    intro seen acc h1 h2
    simp only [mergePass]
    split
    · exact ih _ _ h1 h2
    · split
      · exact ih _ _ h1 h2
      · rename_i hemp hseen
        refine ih _ _ ?_ ?_
        · rw [List.pairwise_append]
          refine ⟨h1, List.pairwise_singleton _ _, ?_⟩
          intro a ha b hb
          rcases List.mem_singleton.1 hb with rfl
          exact fun he => hseen (he ▸ h2 a ha)
        · intro x hx
          rcases List.mem_append.1 hx with h' | h'
          · exact List.mem_append_left _ (h2 x h')
          · rcases List.mem_singleton.1 h' with rfl
            exact List.mem_append_right _ (List.mem_singleton.2 rfl)

/-- Claim C3: for every pair of input lists given to the merge step (the
KB-retrieved list followed by the augmented list), the merged output contains
no two entries whose lower-cased (title, artist) pairs are equal, and no
entry of the output has an empty title or artist. -/
theorem spec_C3_merge_dedup_invariant (a b : List Track) :
    (mergeLists a b).Pairwise (fun x y => lowKeyOf x ≠ lowKeyOf y) ∧
      ∀ t ∈ mergeLists a b, strD t.title ≠ "" ∧ strD t.artist ≠ "" := by
  have h1 := mergePass_inv a [] [] List.Pairwise.nil (by intro x hx; cases hx)
  have h2 := mergePass_inv b (mergePass [] [] a).1 (mergePass [] [] a).2 h1.1 h1.2
  constructor
  · refine List.Pairwise.imp ?_ h2.1
    intro x y hne hlow
    exact hne (keyOf_eq_of_lowKeyOf_eq hlow)
  · intro t ht
    have hm : t ∈ (mergePass (mergePass [] [] a).1 (mergePass [] [] a).2 b).2 := ht
    rcases mergePass_mem b _ _ hm with h | ⟨_, _, hk1, hk2⟩
    · rcases mergePass_mem a _ _ h with h' | ⟨_, _, hk1, hk2⟩
      · cases h'
      · exact ⟨fun he => hk1 (keyOf_fst_of_title_empty he),
          fun he => hk2 (keyOf_snd_of_artist_empty he)⟩
    · exact ⟨fun he => hk1 (keyOf_fst_of_title_empty he),
        fun he => hk2 (keyOf_snd_of_artist_empty he)⟩

/-- Claim C6: if the KB list `A` and the augmented list `B` both contain an
entry with the same lower-cased (title, artist) key (with a non-degenerate
stripped key), the merge keeps an `A` entry for that key and every merged
entry carrying that key comes from `A` — earlier lists win ties. -/
theorem spec_C6_merge_priority (A B : List Track) (a b : Track) (ha : a ∈ A) (_hb : b ∈ B)
    (_hk : lowKeyOf b = lowKeyOf a) (h1 : (keyOf a).1 ≠ "") (h2 : (keyOf a).2 ≠ "") :
    (∃ x, x ∈ mergeLists A B ∧ x ∈ A ∧ keyOf x = keyOf a) ∧
      ∀ x, x ∈ mergeLists A B → keyOf x = keyOf a → x ∈ A := by
  have hseen : keyOf a ∈ (mergePass [] [] A).1 :=
    mergePass_seen_complete A [] [] ha h1 h2
  constructor
  · rcases mergePass_covers A [] [] hseen with h | ⟨x, hx, hkx⟩
    · cases h
    · refine ⟨x, mergePass_acc_mono B _ _ hx, ?_, hkx⟩
      rcases mergePass_mem A [] [] hx with h' | ⟨h', _⟩
      · cases h'
      · exact h'
  · intro x hx hkx
    rcases mergePass_mem B _ _ hx with h | ⟨_, hnot, _⟩
    · rcases mergePass_mem A [] [] h with h' | ⟨h', _⟩
      · cases h'
      · exact h'
    · exact absurd (hkx ▸ hseen) hnot

/-- Claim C5: for bounds-respecting inputs and a positive step,
`relax_range` returns exactly `(max min_val (lo - step), min max_val (hi + step))`,
never narrows the range (the new lo is ≤ the old lo and the new hi is ≥ the
old hi), and its result stays inside `[min_val, max_val]` — in particular
inside `[0, 1]` for the default bounds. -/
theorem spec_C5_relax_range (lo hi step min_val max_val : ℚ)
    (h1 : min_val ≤ lo) (h2 : lo ≤ max_val) (h3 : min_val ≤ hi) (h4 : hi ≤ max_val)
    (h5 : 0 < step) :
    relax_range (lo, hi) step min_val max_val
        = (max min_val (lo - step), min max_val (hi + step)) ∧
      (relax_range (lo, hi) step min_val max_val).1 ≤ lo ∧
      hi ≤ (relax_range (lo, hi) step min_val max_val).2 ∧
      min_val ≤ (relax_range (lo, hi) step min_val max_val).1 ∧
      (relax_range (lo, hi) step min_val max_val).1 ≤ max_val ∧
      min_val ≤ (relax_range (lo, hi) step min_val max_val).2 ∧
      (relax_range (lo, hi) step min_val max_val).2 ≤ max_val := by
  refine ⟨rfl, ?_, ?_, ?_, ?_, ?_, ?_⟩
  · exact max_le h1 (by linarith)
  · exact le_min h4 (by linarith)
  · exact le_max_left _ _
  · exact max_le (h1.trans h2) (by linarith)
  · exact le_min (h3.trans h4) (by linarith)
  · exact min_le_left _ _

/-- Witness for C5 at the happy-path input `(0.4, 0.6)`, step `0.1`, default
bounds `[0, 1]`. -/
theorem spec_C5_relax_range_witness :
    relax_range ((0.4 : ℚ), 0.6) (1 / 10) 0 1
        = (max 0 ((0.4 : ℚ) - 1 / 10), min 1 ((0.6 : ℚ) + 1 / 10)) ∧
      (relax_range ((0.4 : ℚ), 0.6) (1 / 10) 0 1).1 ≤ 0.4 ∧
      (0.6 : ℚ) ≤ (relax_range ((0.4 : ℚ), 0.6) (1 / 10) 0 1).2 ∧
      (0 : ℚ) ≤ (relax_range ((0.4 : ℚ), 0.6) (1 / 10) 0 1).1 ∧
      (relax_range ((0.4 : ℚ), 0.6) (1 / 10) 0 1).1 ≤ 1 ∧
      (0 : ℚ) ≤ (relax_range ((0.4 : ℚ), 0.6) (1 / 10) 0 1).2 ∧
      (relax_range ((0.4 : ℚ), 0.6) (1 / 10) 0 1).2 ≤ 1 :=
  spec_C5_relax_range 0.4 0.6 (1 / 10) 0 1 (by norm_num) (by norm_num) (by norm_num)
    (by norm_num) (by norm_num)

/-- Claim C10: the effective minimum track count of the `/search` route is
`max(Config.MIN_TRACKS, requested)` with `Config.MIN_TRACKS ≥ 20`; a request
asking for 5 tracks is processed (and reported) with 20. -/
theorem spec_C10_effective_min (envVal r : Int) :
    20 ≤ MIN_TRACKS envVal ∧
      effective_min_tracks (MIN_TRACKS envVal) (some r) = max (MIN_TRACKS envVal) r ∧
      effective_min_tracks (MIN_TRACKS envVal) none = MIN_TRACKS envVal ∧
      effective_min_tracks (MIN_TRACKS 20) (some 5) = 20 := by
  have h20 : (20 : Int) ≤ MIN_TRACKS envVal := le_max_left _ _
  refine ⟨h20, ?_, ?_, ?_⟩
  · simp only [effective_min_tracks, pyIntOr]
    by_cases hr : r = 0
    · subst hr
      rw [if_pos rfl, max_self, eq_comm, max_eq_left]
      omega
    · rw [if_neg hr]
  · simp only [effective_min_tracks, pyIntOr]
    exact max_self _
  · rfl

/-! ### Retrieval-loop lemmas -/

/-- The relaxation loop issues at most `fuel` Document Store queries. -/
theorem retrieveLoop_count (repo : OpenSearchRepo) (emotion : String) (m cap : Nat) :
    ∀ (fuel call : Nat) (v e : ℚ × ℚ) (last : List Track),
      (retrieveLoop repo emotion m cap fuel call v e last).2 ≤ fuel := by
  intro fuel
  induction fuel with
  | zero => intro call v e last; simp [retrieveLoop]
  | succ g ih =>
    intro call v e last
    simp only [retrieveLoop]
    split
    · simp
    · split
      · simp
      · simpa using Nat.add_le_add_right (ih _ _ _ _) 1

/-- Claim C4: `RAGPipeline.search_tracks` performs at most
`max_relax_steps + 1` calls to `search_tracks_by_emotion` before returning or
falling through to augmentation. -/
theorem spec_C4_query_budget (env : Env) (emotion : String) (min_tracks max_relax_steps : Nat) :
    (search_tracks_run env emotion min_tracks max_relax_steps).2 ≤ max_relax_steps + 1 := by
  have h := retrieveLoop_count env.repo emotion min_tracks (max (min_tracks * 2) 50)
    (max_relax_steps + 1) 0 (emotion_to_params emotion).valence
    (emotion_to_params emotion).energy []
  rcases hr : retrieveLoop env.repo emotion min_tracks (max (min_tracks * 2) 50)
      (max_relax_steps + 1) 0 (emotion_to_params emotion).valence
      (emotion_to_params emotion).energy [] with ⟨res, c⟩
  rw [hr] at h
  simp only at h
  rcases res with e | r
  · simp only [search_tracks_run, hr]
    simpa using h
  · rcases r with r | tr
    · simp only [search_tracks_run, hr]
      simpa using h
    · rcases ha : augment_and_merge env emotion (emotion_to_params emotion) min_tracks tr with
        e2 | res2
      · simp only [search_tracks_run, hr, ha]
        simpa using h
      · simp only [search_tracks_run, hr, ha]
        simpa using h

/-- One-step unfolding of `retrieveLoop` on a positive budget. -/
theorem retrieveLoop_succ (repo : OpenSearchRepo) (emotion : String) (m cap fuel call : Nat)
    (v e : ℚ × ℚ) (last : List Track) :
    retrieveLoop repo emotion m cap (fuel + 1) call v e last =
      match search_tracks_by_emotion repo call (pyLower emotion) v e cap with
      | (.error e', _) => (.error e', 1)
      | (.ok tracks, _) =>
        if m ≤ tracks.length then (.ok (.early (tracks.take cap)), 1)
        else
          ((retrieveLoop repo emotion m cap fuel (call + 1)
              (relax_range v (1 / 10) 0 1) (relax_range e (1 / 10) 0 1) tracks).1,
            (retrieveLoop repo emotion m cap fuel (call + 1)
              (relax_range v (1 / 10) 0 1) (relax_range e (1 / 10) 0 1) tracks).2 + 1) := by
  rfl

/-- An early return of the relaxation loop is truncated to the cap. -/
theorem retrieveLoop_early_len (repo : OpenSearchRepo) (emotion : String) (m cap : Nat) :
    ∀ (fuel call : Nat) (v e : ℚ × ℚ) (last r : List Track) (c : Nat),
      retrieveLoop repo emotion m cap fuel call v e last = (.ok (.early r), c) →
      r.length ≤ cap := by
  intro fuel
  induction fuel with
  | zero =>
    intro call v e last r c h
    simp [retrieveLoop] at h
  | succ g ih =>
    intro call v e last r c h
    rw [retrieveLoop_succ] at h
    rcases hq : search_tracks_by_emotion repo call (pyLower emotion) v e cap with ⟨res, flag⟩
    rw [hq] at h
    rcases res with e' | tracks
    · simp at h
    · simp only at h
      split at h
      · simp only [Prod.mk.injEq, Except.ok.injEq, RetOut.early.injEq] at h
        rw [← h.1]
        exact List.length_take_le _ _
      · simp only [Prod.mk.injEq] at h
        exact ih _ _ _ _ _ _ (Prod.ext h.1 rfl)

/-- If the relaxation loop falls through, the reported last result set is the
initial accumulator or a query result shorter than the minimum. -/
theorem retrieveLoop_fell (repo : OpenSearchRepo) (emotion : String) (m cap : Nat) :
    ∀ (fuel call : Nat) (v e : ℚ × ℚ) (last l : List Track) (c : Nat),
      retrieveLoop repo emotion m cap fuel call v e last = (.ok (.fellThrough l), c) →
      l = last ∨ l.length < m := by
  intro fuel
  induction fuel with
  | zero =>
    intro call v e last l c h
    simp only [retrieveLoop, Prod.mk.injEq, Except.ok.injEq, RetOut.fellThrough.injEq] at h
    exact Or.inl h.1.symm
  | succ g ih =>
    intro call v e last l c h
    rw [retrieveLoop_succ] at h
    rcases hq : search_tracks_by_emotion repo call (pyLower emotion) v e cap with ⟨res, flag⟩
    rw [hq] at h
    rcases res with e' | tracks
    · simp at h
    · simp only at h
      split at h
      · simp at h
      · rename_i hlen
        simp only [Prod.mk.injEq] at h
        rcases ih _ _ _ _ _ _ (Prod.ext h.1 rfl) with h' | h'
        · subst h'
          exact Or.inr (by omega)
        · exact Or.inr h'

/-- When every raw store query reports a missing collection and the minimum
is positive, the relaxation loop exhausts its budget with an empty last
result set, one query per iteration. -/
theorem retrieveLoop_notFound (repo : OpenSearchRepo) (emotion : String) (m cap : Nat)
    (hnf : ∀ k em v e lim, repo.rawSearch k em v e lim = .notFound) (hm : 0 < m) :
    ∀ (fuel call : Nat) (v e : ℚ × ℚ) (last : List Track),
      retrieveLoop repo emotion m cap (fuel + 1) call v e last
        = (.ok (.fellThrough []), fuel + 1) := by
  intro fuel
  induction fuel with
  | zero =>
    intro call v e last
    rw [retrieveLoop_succ]
    have hq : search_tracks_by_emotion repo call (pyLower emotion) v e cap = (.ok [], true) := by
      simp [search_tracks_by_emotion, hnf]
    rw [hq]
    simp only [List.length_nil, Nat.le_zero]
    rw [if_neg hm.ne']
    simp [retrieveLoop]
  | succ g ih =>
    intro call v e last
    rw [retrieveLoop_succ]
    have hq : search_tracks_by_emotion repo call (pyLower emotion) v e cap = (.ok [], true) := by
      simp [search_tracks_by_emotion, hnf]
    rw [hq]
    simp only [List.length_nil, Nat.le_zero]
    rw [if_neg hm.ne']
    rw [ih]

/-- Claim C1 counterexample: with an unreachable Document Store the read path
of `search_tracks` does propagate a fatal error (for emotion `"happy"`,
`min_tracks = 1`, default relaxation budget), so the claim as stated — which
also covers the unreachable-store case — fails. -/
theorem spec_C1_counterexample : isErr (search_tracks envUnreach "happy" 1 2) = true := by
  decide

/-- Claim C1 (amended): when the Document Store's collection does not yet
exist (every raw query reports a 404), `search_tracks_by_emotion` returns an
empty list after attempting the lazy index creation, and `search_tracks`
propagates no fatal error: it runs every relaxation step on zero results and
proceeds to the augmentation fallback. -/
theorem spec_C1_missing_collection (env : Env) (emotion : String)
    (min_tracks max_relax_steps : Nat)
    (hnf : ∀ k em v e lim, env.repo.rawSearch k em v e lim = .notFound)
    (hm : 0 < min_tracks) :
    (∀ (call : Nat) (em : String) (v e : ℚ × ℚ) (lim : Nat),
        search_tracks_by_emotion env.repo call em v e lim = (.ok [], true)) ∧
      search_tracks_run env emotion min_tracks max_relax_steps =
        ((match augment_and_merge env emotion (emotion_to_params emotion) min_tracks [] with
          | .ok r => .ok r
          | .error _ => .ok []), max_relax_steps + 1) := by
  constructor
  · intro call em v e lim
    simp [search_tracks_by_emotion, hnf]
  · have h := retrieveLoop_notFound env.repo emotion min_tracks (max (min_tracks * 2) 50)
      hnf hm max_relax_steps 0 (emotion_to_params emotion).valence
      (emotion_to_params emotion).energy []
    rcases ha : augment_and_merge env emotion (emotion_to_params emotion) min_tracks [] with
      e2 | res2
    · simp only [search_tracks_run, h, ha]
    · simp only [search_tracks_run, h, ha]

/-- Witness for the amended C1 at a concrete 404-everywhere environment. -/
theorem spec_C1_missing_collection_witness :
    search_tracks_by_emotion envMissingIdx.repo 0 "happy" ((0.6 : ℚ), 1) ((0.5 : ℚ), 1) 50
        = (.ok [], true) ∧
      search_tracks_run envMissingIdx "happy" 1 2 = (.ok [], 3) := by
  have h := spec_C1_missing_collection envMissingIdx "happy" 1 2
    (fun _ _ _ _ _ => rfl) (by decide)
  exact ⟨h.1 0 "happy" ((0.6 : ℚ), 1) ((0.5 : ℚ), 1) 50, h.2.trans (by rfl)⟩

/-! ### Augmentation lemmas -/

/-- `curate_songs` never returns more than `count` suggestions. -/
theorem curate_songs_len (modelOut : List Sugg) (count : Nat) :
    (curate_songs modelOut count).length ≤ count := by
  unfold curate_songs
  exact List.length_take_le _ _

/-- The suggestion filter adds at most one pair per suggestion. -/
theorem processSuggestions_len (repo : OpenSearchRepo) :
    ∀ (l : List Sugg) (keys pairs : List TAKey),
      (processSuggestions repo l keys pairs).2.length ≤ pairs.length + l.length := by
  intro l
  induction l with
  | nil => intro keys pairs; simp [processSuggestions]
  | cons s rest ih =>
    intro keys pairs
    simp only [processSuggestions]
    split
    · exact (ih _ _).trans (by simp only [List.length_cons]; omega)
    · split
      · exact (ih _ _).trans (by simp only [List.length_cons]; omega)
      · split
        · refine (ih _ _).trans ?_
          simp only [List.length_cons, List.length_append, List.length_nil]
          omega
        · exact (ih _ _).trans (by simp only [List.length_cons]; omega)

/-- The suggestion filter only grows the key set. -/
theorem processSuggestions_keys_mono (repo : OpenSearchRepo) {k : TAKey} :
    ∀ (l : List Sugg) (keys pairs : List TAKey),
      k ∈ keys → k ∈ (processSuggestions repo l keys pairs).1 := by
  intro l
  induction l with
  | nil => intro keys pairs hk; simpa [processSuggestions] using hk
  | cons s rest ih =>
    intro keys pairs hk
    simp only [processSuggestions]
    split
    · exact ih _ _ hk
    · split
      · exact ih _ _ hk
      · split
        · exact ih _ _ (List.mem_append_left _ hk)
        · exact ih _ _ hk

/-- With the requested pair count already reached, the curation loop stops
immediately. -/
theorem curationRounds_stop (env : Env) (emotion : String) (base : EmotionParams)
    (desired : Nat) (fuel call : Nat) (keys pairs : List TAKey)
    (h : desired ≤ pairs.length) :
    curationRounds env emotion base desired fuel call keys pairs = .ok (keys, pairs) := by
  cases fuel with
  | zero => rfl
  | succ g =>
    simp only [curationRounds]
    rw [if_neg (Nat.not_lt.mpr h)]

/-- When the curation loop starts short of `desired` and finishes normally,
the accumulated pair list never exceeds `2 * desired - 1`: each round adds at
most `desired` pairs and the loop stops as soon as `desired` is reached. -/
theorem curationRounds_len (env : Env) (emotion : String) (base : EmotionParams)
    (desired : Nat) :
    ∀ (fuel call : Nat) (keys pairs : List TAKey) (kp : List TAKey × List TAKey),
      pairs.length < desired →
      curationRounds env emotion base desired fuel call keys pairs = .ok kp →
      kp.2.length ≤ 2 * desired - 1 := by
  intro fuel
  induction fuel with
  | zero =>
    intro call keys pairs kp hlt h
    simp only [curationRounds, Except.ok.injEq] at h
    rw [← h]
    simp only
    omega
  | succ g ih =>
    intro call keys pairs kp hlt h
    simp only [curationRounds] at h
    rw [if_pos hlt] at h
    rcases hc : env.curateModel call emotion desired (keys.take 100) base with e | modelOut
    · rw [hc] at h
      simp at h
    · rw [hc] at h
      simp only at h
      set next := processSuggestions env.repo (curate_songs modelOut desired) keys pairs with hnext
      have hlen : next.2.length ≤ pairs.length + desired := by
        refine (processSuggestions_len env.repo _ _ _).trans ?_
        have := curate_songs_len modelOut desired
        omega
      by_cases h2 : next.2.length < desired
      · exact ih _ _ _ _ h2 h
      · rw [curationRounds_stop env emotion base desired g (call + 1) next.1 next.2
          (Nat.not_lt.mp h2)] at h
        simp only [Except.ok.injEq] at h
        rw [← h]
        simp only
        omega

/-- The curation loop only grows the key set. -/
theorem curationRounds_keys_mono (env : Env) (emotion : String) (base : EmotionParams)
    (desired : Nat) {k : TAKey} :
    ∀ (fuel call : Nat) (keys pairs : List TAKey) (kp : List TAKey × List TAKey),
      curationRounds env emotion base desired fuel call keys pairs = .ok kp →
      k ∈ keys → k ∈ kp.1 := by
  intro fuel
  induction fuel with
  | zero =>
    intro call keys pairs kp h hk
    simp only [curationRounds, Except.ok.injEq] at h
    rw [← h]
    exact hk
  | succ g ih =>
    intro call keys pairs kp h hk
    simp only [curationRounds] at h
    split at h
    · rcases hc : env.curateModel call emotion desired (keys.take 100) base with e | modelOut
      · rw [hc] at h
        simp at h
      · rw [hc] at h
        simp only at h
        exact ih _ _ _ _ h (processSuggestions_keys_mono env.repo _ _ _ hk)
    · simp only [Except.ok.injEq] at h
      rw [← h]
      exact hk

/-- `buildFound` emits at most one entry per resolved record. -/
theorem buildFound_len (emotion : String) (feats : List (String × Feat)) (vMid eMid : ℚ) :
    ∀ (l : List Track) (seen : List TAKey),
      (buildFound emotion feats vMid eMid l seen).length ≤ l.length := by
  intro l
  induction l with
  | nil => intro seen; simp [buildFound]
  | cons t rest ih =>
    intro seen
    simp only [buildFound]
    rcases t.title with _ | ti
    · exact (ih _).trans (by simp only [List.length_cons]; omega)
    · rcases t.artist with _ | ar
      · exact (ih _).trans (by simp only [List.length_cons]; omega)
      · simp only
        split
        · exact (ih _).trans (by simp only [List.length_cons]; omega)
        · split
          · exact (ih _).trans (by simp only [List.length_cons]; omega)
          · simp only [List.length_cons]
            have := ih (seen ++ [(pyLower ti, pyLower ar)])
            omega

/-- Every `buildFound` entry has a non-empty `some` title and artist and an
un-stripped key outside the seen set it started from. -/
theorem buildFound_mem (emotion : String) (feats : List (String × Feat)) (vMid eMid : ℚ) :
    ∀ (l : List Track) (seen : List TAKey) (x : Track),
      x ∈ buildFound emotion feats vMid eMid l seen →
      strD x.title ≠ "" ∧ strD x.artist ≠ "" ∧ lowKeyOf x ∉ seen := by
  intro l
  induction l with
  | nil => intro seen x hx; simp [buildFound] at hx
  | cons t rest ih =>
    intro seen x hx
    simp only [buildFound] at hx
    rcases ht : t.title with _ | ti
    · rw [ht] at hx
      exact ih _ _ hx
    · rcases ha : t.artist with _ | ar
      · rw [ht, ha] at hx
        exact ih _ _ hx
      · rw [ht, ha] at hx
        simp only at hx
        split at hx
        · exact ih _ _ hx
        · split at hx
          · exact ih _ _ hx
          · rename_i hemp hseen
            push_neg at hemp
            rcases List.mem_cons.1 hx with rfl | hmem
            · refine ⟨by simpa [strD] using hemp.1, by simpa [strD] using hemp.2, ?_⟩
              simpa [lowKeyOf, strD] using hseen
            · have h := ih _ _ hmem
              exact ⟨h.1, h.2.1, fun hk => h.2.2 (List.mem_append_left _ hk)⟩

/-- `buildFound` entries have pairwise distinct un-stripped keys. -/
theorem buildFound_pairwise (emotion : String) (feats : List (String × Feat)) (vMid eMid : ℚ) :
    ∀ (l : List Track) (seen : List TAKey),
      (buildFound emotion feats vMid eMid l seen).Pairwise
        (fun x y => lowKeyOf x ≠ lowKeyOf y) := by
  intro l
  induction l with
  | nil => intro seen; simp [buildFound]
  | cons t rest ih =>
    intro seen
    simp only [buildFound]
    rcases t.title with _ | ti
    · exact ih _
    · rcases t.artist with _ | ar
      · exact ih _
      · simp only
        split
        · exact ih _
        · split
          · exact ih _
          · refine List.Pairwise.cons ?_ (ih _)
            intro y hy he
            have h := buildFound_mem emotion feats vMid eMid rest _ y hy
            refine h.2.2 (List.mem_append_right _ (List.mem_singleton.2 ?_))
            rw [← he]
            simp [lowKeyOf, strD]

/-- Destructuring a successful augmentation run into its curation, resolution
and assembly stages. -/
theorem augment_candidates_cases (env : Env) (emotion : String) (base : EmotionParams)
    (m : Nat) (tracks found : List Track)
    (h : augment_candidates env emotion base m tracks = .ok found) :
    ∃ (kp : List TAKey × List TAKey) (resolved : List Track) (feats : List (String × Feat)),
      curationRounds env emotion base (max m 20) 3 1 (existingKeysOf tracks) [] = .ok kp ∧
        env.resolveBatch kp.2 = .ok resolved ∧
        found = buildFound emotion feats (pyRound2 ((base.valence.1 + base.valence.2) / 2))
          (pyRound2 ((base.energy.1 + base.energy.2) / 2)) resolved kp.1 := by
  unfold augment_candidates at h
  rcases hll : env.llmInit with e | u
  · rw [hll] at h
    simp at h
  · rw [hll] at h
    simp only at h
    rcases hcr : curationRounds env emotion base (max m 20) 3 1 (existingKeysOf tracks) []
      with e | kp
    · rw [hcr] at h
      simp at h
    · rw [hcr] at h
      simp only at h
      rcases hrb : env.resolveBatch kp.2 with e | resolved
      · rw [hrb] at h
        simp at h
      · rw [hrb] at h
        simp only [Except.ok.injEq] at h
        exact ⟨kp, resolved, _, rfl, hrb, h.symm⟩

/-- Size of a successful augmentation result, assuming the resolver returns
at most one record per requested pair. -/
theorem augment_candidates_len (env : Env) (emotion : String) (base : EmotionParams)
    (m : Nat) (tracks found : List Track)
    (hres : ∀ ps l, env.resolveBatch ps = .ok l → l.length ≤ ps.length)
    (h : augment_candidates env emotion base m tracks = .ok found) :
    found.length ≤ 2 * max m 20 - 1 := by
  obtain ⟨kp, resolved, feats, hcr, hrb, hfound⟩ :=
    augment_candidates_cases env emotion base m tracks found h
  have h1 : found.length ≤ resolved.length := by
    rw [hfound]
    exact buildFound_len _ _ _ _ _ _
  have h2 : resolved.length ≤ kp.2.length := hres _ _ hrb
  have h3 : kp.2.length ≤ 2 * max m 20 - 1 := by
    refine curationRounds_len env emotion base (max m 20) 3 1 (existingKeysOf tracks) [] kp
      ?_ hcr
    simp only [List.length_nil]
    omega
  omega

/-- Membership facts about a successful augmentation result: non-empty
fields and exclusion from the existing keys. -/
theorem augment_candidates_mem (env : Env) (emotion : String) (base : EmotionParams)
    (m : Nat) (tracks found : List Track)
    (h : augment_candidates env emotion base m tracks = .ok found) :
    ∀ t ∈ found, strD t.title ≠ "" ∧ strD t.artist ≠ "" ∧
      lowKeyOf t ∉ existingKeysOf tracks := by
  obtain ⟨kp, resolved, feats, hcr, hrb, hfound⟩ :=
    augment_candidates_cases env emotion base m tracks found h
  intro t ht
  rw [hfound] at ht
  have hb := buildFound_mem _ _ _ _ _ _ _ ht
  exact ⟨hb.1, hb.2.1, fun hk =>
    hb.2.2 (curationRounds_keys_mono env emotion base (max m 20) 3 1 _ _ kp hcr hk)⟩

/-- A successful augmentation result has pairwise distinct lower-cased
(title, artist) keys. -/
theorem augment_candidates_pairwise (env : Env) (emotion : String) (base : EmotionParams)
    (m : Nat) (tracks found : List Track)
    (h : augment_candidates env emotion base m tracks = .ok found) :
    found.Pairwise (fun x y => lowKeyOf x ≠ lowKeyOf y) := by
  obtain ⟨kp, resolved, feats, hcr, hrb, hfound⟩ :=
    augment_candidates_cases env emotion base m tracks found h
  rw [hfound]
  exact buildFound_pairwise _ _ _ _ _ _

/-- Claim C2 counterexample: with a well-behaved curator (at most the
requested count per round) and a resolver answering one canonical record per
requested pair, the augmentation fallback for `min_tracks = 1` returns 39
candidates — more than `desired_count = max(1, 20) = 20` — and some returned
candidate's canonical (title, artist) IS discoverable via
`find_by_title_artist` (the KB check ran on the suggested spelling, not the
resolved one).  The claim as stated is therefore false. -/
theorem spec_C2_counterexample :
    okLen (augment_candidates envAug "happy" (emotion_to_params "happy") 1 []) = some 39 ∧
      anyFindable envAug.repo
        (augment_candidates envAug "happy" (emotion_to_params "happy") 1 []) = true ∧
      max 1 20 < 39 := by
  decide

/-- Claim C2 (amended): every candidate produced by the augmentation
fallback has a non-empty title and artist and a lower-cased (title, artist)
key outside the `existing_keys` set built from the retrieved tracks, the
candidates' keys are pairwise distinct, and — when the resolver returns at
most one record per requested pair — at most `2 * desired_count - 1`
candidates are returned (`desired_count = max(min_tracks, 20)`; one round
may end one short of the target and the next adds up to `desired_count`
more). -/
theorem spec_C2_augment_exclusion (env : Env) (emotion : String) (base : EmotionParams)
    (min_tracks : Nat) (tracks found : List Track)
    (hres : ∀ ps l, env.resolveBatch ps = .ok l → l.length ≤ ps.length)
    (hrun : augment_candidates env emotion base min_tracks tracks = .ok found) :
    (∀ t ∈ found, strD t.title ≠ "" ∧ strD t.artist ≠ "" ∧
        lowKeyOf t ∉ existingKeysOf tracks) ∧
      found.Pairwise (fun x y => lowKeyOf x ≠ lowKeyOf y) ∧
      found.length ≤ 2 * max min_tracks 20 - 1 :=
  ⟨augment_candidates_mem env emotion base min_tracks tracks found hrun,
    augment_candidates_pairwise env emotion base min_tracks tracks found hrun,
    augment_candidates_len env emotion base min_tracks tracks found hres hrun⟩

/-- The quiet environment's resolver returns at most one record per pair. -/
theorem envQuiet_resolve_len :
    ∀ ps l, envQuiet.resolveBatch ps = .ok l → l.length ≤ ps.length := by
  intro ps l h
  have h2 : (Except.ok ([] : List Track) : Except Unit (List Track)) = .ok l := h
  simp only [Except.ok.injEq] at h2
  rw [← h2]
  simp

/-- Witness for the amended C2 at a quiet environment (no suggestions, no
resolutions). -/
theorem spec_C2_augment_exclusion_witness :
    augment_candidates envQuiet "happy" (emotion_to_params "happy") 1 [] = .ok [] ∧
      ([] : List Track).length ≤ 2 * max 1 20 - 1 := by
  refine ⟨rfl, ?_⟩
  exact (spec_C2_augment_exclusion envQuiet "happy" (emotion_to_params "happy") 1 [] []
    envQuiet_resolve_len rfl).2.2

/-- Arithmetic bound: the augmented candidate count stays under the
presentation cap. -/
theorem aug_len_le_cap (m : Nat) : 2 * max m 20 - 1 ≤ max (m * 2) 50 := by
  rcases Nat.le_total m 20 with h | h
  · rw [Nat.max_eq_right h]
    have := Nat.le_max_right (m * 2) 50
    omega
  · rw [Nat.max_eq_left h]
    have := Nat.le_max_left (m * 2) 50
    omega

/-- Claim C7: whatever list `RAGPipeline.search_tracks` returns — from the
early return of the relaxation loop, the merged augmentation result, the
unmerged fallback candidates, or the exception fallback returning the
retrieved tracks — has length at most `max(2 * min_tracks, 50)`, assuming the
resolver yields at most one record per requested pair (its stated
interface). -/
theorem spec_C7_result_cap (env : Env) (emotion : String) (min_tracks max_relax_steps : Nat)
    (r : List Track)
    (hres : ∀ ps l, env.resolveBatch ps = .ok l → l.length ≤ ps.length)
    (hr : search_tracks env emotion min_tracks max_relax_steps = .ok r) :
    r.length ≤ max (min_tracks * 2) 50 := by
  unfold search_tracks at hr
  rcases hl : retrieveLoop env.repo emotion min_tracks (max (min_tracks * 2) 50)
      (max_relax_steps + 1) 0 (emotion_to_params emotion).valence
      (emotion_to_params emotion).energy [] with ⟨res, c⟩
  rcases res with e | ro
  · simp only [search_tracks_run, hl] at hr
    exact absurd hr (by simp)
  · rcases ro with r0 | tr
    · simp only [search_tracks_run, hl, Except.ok.injEq] at hr
      rw [← hr]
      exact retrieveLoop_early_len env.repo emotion min_tracks _ _ _ _ _ _ _ _ hl
    · rcases ha : augment_and_merge env emotion (emotion_to_params emotion) min_tracks tr
        with e2 | res2
      · simp only [search_tracks_run, hl, ha, Except.ok.injEq] at hr
        rw [← hr]
        rcases retrieveLoop_fell env.repo emotion min_tracks _ _ _ _ _ _ _ _ hl with h' | h'
        · rw [h']
          simp
        · have hm : min_tracks ≤ max (min_tracks * 2) 50 :=
            le_trans (by omega) (Nat.le_max_left _ _)
          omega
      · simp only [search_tracks_run, hl, ha, Except.ok.injEq] at hr
        unfold augment_and_merge at ha
        rcases hac : augment_candidates env emotion (emotion_to_params emotion) min_tracks tr
          with e3 | found
        · rw [hac] at ha
          simp at ha
        · rw [hac] at ha
          simp only [Except.ok.injEq] at ha
          rw [← hr, ← ha]
          by_cases hm : (mergeLists tr found).isEmpty
          · rw [if_pos hm]
            have h1 := augment_candidates_len env emotion (emotion_to_params emotion)
              min_tracks tr found hres hac
            have h2 := aug_len_le_cap min_tracks
            omega
          · rw [if_neg hm]
            exact List.length_take_le _ _

/-- Witness for C7 at the quiet environment: an early empty return obeys the
cap. -/
theorem spec_C7_result_cap_witness :
    search_tracks envQuiet "happy" 0 2 = .ok [] ∧
      ([] : List Track).length ≤ max (0 * 2) 50 :=
  ⟨rfl, spec_C7_result_cap envQuiet "happy" 0 2 [] envQuiet_resolve_len rfl⟩

/-- Claim C8 counterexample: when the audio-feature fetch raises (and
nothing else fails), `search_tracks` does NOT return the relaxation-loop
tracks unchanged — the retrieval fell through with zero tracks, the
audio-feature step raised, yet the result carries the augmented candidate
with midpoint valence/energy.  The claim's audio-feature clause is false. -/
theorem spec_C8_counterexample :
    afErr envFeatFail ["sp1"] = true ∧
      fellTitles (retrieveLoop envFeatFail.repo "happy" 1 (max (1 * 2) 50) 3 0
        (emotion_to_params "happy").valence (emotion_to_params "happy").energy []) = some [] ∧
      okTitles (search_tracks envFeatFail "happy" 1 2) = some ["New Song (Remastered)"] ∧
      some ["New Song (Remastered)"] ≠ some ([] : List String) := by
  decide

/-- Claim C8 (amended): if the augmentation fallback raises — which happens
exactly when LLM client construction, a curation call, or the batch
resolution raises; an audio-feature failure is absorbed into midpoint
values — then `search_tracks` returns the relaxation loop's last result set
unchanged, even when it is short or empty. -/
theorem spec_C8_augment_failure (env : Env) (emotion : String)
    (min_tracks max_relax_steps c : Nat) (tr : List Track)
    (hfell : retrieveLoop env.repo emotion min_tracks (max (min_tracks * 2) 50)
        (max_relax_steps + 1) 0 (emotion_to_params emotion).valence
        (emotion_to_params emotion).energy [] = (.ok (.fellThrough tr), c))
    (haug : augment_and_merge env emotion (emotion_to_params emotion) min_tracks tr
        = .error ()) :
    search_tracks env emotion min_tracks max_relax_steps = .ok tr := by
  unfold search_tracks
  simp only [search_tracks_run, hfell, haug]

/-- Witness for the amended C8: with no API key the LLM client construction
raises and the empty retrieval result is returned unchanged. -/
theorem spec_C8_augment_failure_witness :
    search_tracks envNoLLM "happy" 1 2 = .ok [] :=
  spec_C8_augment_failure envNoLLM "happy" 1 2 3 [] rfl rfl

/-- Claim C9: for every merged candidate with a falsy id, the indexing step
derives the id deterministically as
`"llm-{emotion}-{title-slug}-{artist-slug}"` capped at 256 characters, and
equal (title, artist, emotion) inputs always yield equal ids. -/
theorem spec_C9_derived_id (emotion now now2 : String) (t u : Track)
    (hid : isFalsyStr t.id = true) (hid2 : isFalsyStr u.id = true)
    (ht : strD u.title = strD t.title) (ha : strD u.artist = strD t.artist) :
    (normalize_doc emotion now t).id =
      some (("llm-" ++ emotion ++ "-" ++ slugify (strD t.title) ++ "-" ++
        slugify (strD t.artist)).take 256) ∧
      (normalize_doc emotion now t).id = (normalize_doc emotion now2 u).id := by
  have key : ∀ (w : Track) (nw : String), isFalsyStr w.id = true →
      (normalize_doc emotion nw w).id = some (derived_doc_id emotion w) := by
    intro w nw hw
    unfold normalize_doc
    simp only [hw, if_true]
    rcases hm : w.mood with _ | mo <;> rcases hc : w.createdAt with _ | cr <;> simp [hm, hc]
  refine ⟨key t now hid, ?_⟩
  rw [key t now hid, key u now2 hid2]
  unfold derived_doc_id
  rw [ht, ha]

set_option maxRecDepth 100000 in
/-- Witness for C9: title `"Song"`, artist `"Artist"`, emotion `"sad"`, no
pre-set id gives id `"llm-sad-song-artist"`. -/
theorem spec_C9_derived_id_witness :
    (normalize_doc "sad" "2024-01-01T00:00:00Z" songTrack).id = some "llm-sad-song-artist" := by
  have h := (spec_C9_derived_id "sad" "2024-01-01T00:00:00Z" "2024-01-01T00:00:00Z"
    songTrack songTrack rfl rfl rfl rfl).1
  rw [h]
  decide

/-- Witness for C6: a KB entry `"Song"/"Artist"` and an augmented entry
`"song"/"ARTIST"` share a lower-cased key; the merged output keeps the KB
entry. -/
theorem spec_C6_merge_priority_witness :
    (∃ x, x ∈ mergeLists [mergeTrackA] [mergeTrackB] ∧ x ∈ [mergeTrackA] ∧
        keyOf x = keyOf mergeTrackA) ∧
      ∀ x, x ∈ mergeLists [mergeTrackA] [mergeTrackB] → keyOf x = keyOf mergeTrackA →
        x ∈ [mergeTrackA] :=
  spec_C6_merge_priority [mergeTrackA] [mergeTrackB] mergeTrackA mergeTrackB
    (List.mem_singleton.2 rfl) (List.mem_singleton.2 rfl) (by decide) (by decide) (by decide)
